import Mathlib

/-!
Shallow embedding of the signal engine in src/app.py, a three channel signal
modulation oscilloscope demo.  Numpy arrays are embedded as `List ℝ`;
elementwise numpy operations become `List.map` and `List.zipWith`, which agree
with numpy exactly when the operand lengths agree (the data model keeps every
waveform at the length of the shared time base).  The stream of
`np.random.random()` draws consumed by the Binary Data branch is made explicit
as a function `ℕ → ℝ`, one draw per sample.  `np.gradient` raises a
`ValueError` on arrays of fewer than two samples, so it is embedded as an
`Option`; every other operation is total.
-/

open Real

noncomputable section

/-- Waveform is a sampled voltage sequence, one real sample per time instant. -/
abbrev Waveform := List ℝ

/-- rmod x y is numpy mod semantics on reals: x - y * floor (x / y). -/
def rmod (x y : ℝ) : ℝ := x - y * ⌊x / y⌋

/-- scipy.signal.square with duty cycle `duty`: +1 while the phase mod 2*pi is
below duty * 2*pi, and -1 afterwards. -/
def scipy_square (duty x : ℝ) : ℝ :=
  if rmod x (2 * π) < duty * (2 * π) then 1 else -1

/-- scipy.signal.sawtooth with rise fraction `width`: a ramp from -1 up to 1
over the first width * 2*pi of each period, then back down to -1. -/
def scipy_sawtooth (width x : ℝ) : ℝ :=
  let m := rmod x (2 * π)
  if m < width * (2 * π) then m / (π * width) - 1
  else (π * (width + 1) - m) / (π * (1 - width))

/-- cumsumAux feeds the running total through the list. -/
def cumsumAux (acc : ℝ) : List ℝ → List ℝ
  | [] => []
  | x :: xs => (acc + x) :: cumsumAux (acc + x) xs

/-- cumsum is np.cumsum: the i-th output is the sum of the first i+1 inputs. -/
def cumsum (l : List ℝ) : List ℝ := cumsumAux 0 l

/-- np_sign is np.sign on reals: 1 for positives, -1 for negatives, 0 at 0. -/
def np_sign (x : ℝ) : ℝ := if 0 < x then 1 else if x < 0 then -1 else 0

/-- np_unwrap_go processes the tail of the phase list.  `prev` is the previous
original sample and `acc` the correction accumulated so far.  For each step the
jump `dd` from the previous original sample is folded into (-pi, pi] exactly as
np.unwrap does (numpy maps `dd + pi` into [0, 2*pi) and subtracts pi, then
patches the -pi result to pi when the jump was positive); jumps smaller than
the default discontinuity pi contribute no correction. -/
def np_unwrap_go (prev acc : ℝ) : List ℝ → List ℝ
  | [] => []
  | x :: rest =>
    let dd := x - prev
    let ddmod0 := rmod (dd + π) (2 * π) - π
    let ddmod := if ddmod0 = -π ∧ 0 < dd then π else ddmod0
    let corr := if |dd| < π then 0 else ddmod - dd
    (x + (acc + corr)) :: np_unwrap_go x (acc + corr) rest

/-- np_unwrap is np.unwrap with the default period 2*pi: the first sample is
kept and each later sample is shifted by a cumulative multiple-of-2*pi
correction so that consecutive jumps stay within pi. -/
def np_unwrap : List ℝ → List ℝ
  | [] => []
  | x :: rest => x :: np_unwrap_go x 0 rest

/-- np_gradient is np.gradient with unit spacing: one sided differences at the
two ends and central differences inside.  Numpy raises a ValueError when the
array has fewer than two samples, embedded here as `none`. -/
def np_gradient (a : List ℝ) : Option (List ℝ) :=
  if a.length < 2 then none
  else some ((List.range a.length).map (fun i =>
    if i = 0 then a.getD 1 0 - a.getD 0 0
    else if i = a.length - 1 then a.getD i 0 - a.getD (i - 1) 0
    else (a.getD (i + 1) 0 - a.getD (i - 1) 0) / 2))

/-- charsPre needle hay tests whether needle starts hay, character by
character. -/
def charsPre : List Char → List Char → Bool
  | [], _ => true
  | _ :: _, [] => false
  | a :: as, b :: bs => a == b && charsPre as bs

/-- charsSub needle hay tests whether needle occurs contiguously anywhere in
hay. -/
def charsSub (needle : List Char) : List Char → Bool
  | [] => charsPre needle []
  | b :: bs => charsPre needle (b :: bs) || charsSub needle bs

/-- strContains hay needle is the Python substring test `needle in hay`. -/
def strContains (hay needle : String) : Bool := charsSub needle.data hay.data

/-- firstWord is Python `s.split()[0]` for the identity strings used here,
whose only whitespace is the space character: leading spaces are dropped and
the characters up to the next space are kept. -/
def firstWord (s : String) : String :=
  String.mk ((s.data.dropWhile (fun c => c == ' ')).takeWhile (fun c => c != ' '))

/-- generate_signal embeds generate_signal, src/app.py lines 40 to 53.  The
extra argument `rng` is the stream of np.random.random() draws, read only by
the Binary Data branch, one draw per sample.  No branch validates amplitude or
frequency; an unrecognized type falls through to np.zeros_like(t). -/
def generate_signal (signal_type : String) (t : List ℝ)
    (amplitude frequency offset : ℝ) (rng : ℕ → ℝ) : Waveform :=
  if signal_type = "Sine Wave" then
    t.map (fun x => amplitude * Real.sin (2 * π * frequency * x) + offset)
  else if signal_type = "Square Wave" then
    t.map (fun x => amplitude * scipy_square 0.5 (2 * π * frequency * x) + offset)
  else if signal_type = "Triangle Wave" then
    t.map (fun x => amplitude * scipy_sawtooth 0.5 (2 * π * frequency * x) + offset)
  else if signal_type = "Clock Pulse" then
    t.map (fun x => amplitude * scipy_square 0.5 (2 * π * frequency * x) + offset)
  else if signal_type = "Binary Data" then
    (List.range t.length).map (fun i => amplitude * (if rng i > 0.5 then (1:ℝ) else 0) + offset)
  else if signal_type = "Carrier Wave" then
    t.map (fun x => amplitude * Real.sin (2 * π * frequency * x) + offset)
  else
    t.map (fun _ => 0)

/-- modulate_signal embeds modulate_signal, src/app.py lines 57 to 74.  The FM
branch reads t[1] - t[0]; Python would raise an IndexError on a time base
shorter than two samples, a case outside every use in the program (the time
base always has 10000 samples), embedded here with getD defaults.  An
unrecognized scheme falls through to np.zeros_like(t). -/
def modulate_signal (carrier_freq : ℝ) (message_signal : Waveform)
    (t : List ℝ) (mod_type : String) (mod_index : ℝ) : Waveform :=
  let carrier := t.map (fun x => Real.sin (2 * π * carrier_freq * x))
  if mod_type = "AM" then
    List.zipWith (fun m c => (1 + mod_index * m) * c) message_signal carrier
  else if mod_type = "FM" then
    let dt := t.getD 1 0 - t.getD 0 0
    let integrated := (cumsum message_signal).map (fun s => s * dt)
    List.zipWith (fun x s => Real.sin (2 * π * carrier_freq * x + mod_index * s)) t integrated
  else if mod_type = "PM" then
    List.zipWith (fun x m => Real.sin (2 * π * carrier_freq * x + mod_index * m)) t message_signal
  else if mod_type = "ASK" then
    List.zipWith (fun c m => c * ((if m > 0 then (1:ℝ) else 0) * 0.5 + 0.5)) carrier message_signal
  else if mod_type = "FSK" then
    List.zipWith (fun m x =>
      if m > 0 then Real.sin (2 * π * carrier_freq * 1.5 * x)
      else Real.sin (2 * π * carrier_freq * x)) message_signal t
  else if mod_type = "PSK" then
    List.zipWith (fun c m => c * np_sign m) carrier message_signal
  else
    t.map (fun _ => 0)

/-- demodulate_signal embeds demodulate_signal, src/app.py lines 77 to 86.
The FM and PM branch is np.gradient(np.unwrap(np.angle(signal + 1j*signal)))
and inherits the partiality of np.gradient, hence the Option result; every
other branch always succeeds.  The ASK branch returns the numpy boolean array
`signal > 0.1`, represented by its numeric 0 and 1 values, which is how every
consumer of it (arithmetic and plotting) reads it.  An unrecognized scheme
falls through to np.zeros_like(signal). -/
def demodulate_signal (signal : Waveform) (mod_type : String) : Option Waveform :=
  if mod_type = "AM" then some (signal.map (fun x => |x|))
  else if mod_type = "FM" ∨ mod_type = "PM" then
    np_gradient (np_unwrap (signal.map (fun x : ℝ => Complex.arg ((x : ℂ) + (x : ℂ) * Complex.I))))
  else if mod_type = "ASK" then
    some (signal.map (fun x => if x > 0.1 then (1:ℝ) else 0))
  else if mod_type = "PSK" ∨ mod_type = "FSK" then
    some (signal.map (fun x => if x > 0 then (1:ℝ) else 0))
  else some (signal.map (fun _ => 0))

/-- channel_signal embeds the per channel dispatch of main, src/app.py lines
161 to 178: substring matches on the identity string in priority order, the
Carrier Wave branch reading the global carrier frequency instead of the
request frequency, the Modulated and Demodulated branches extracting the
scheme as the first word of the identity and finishing with the affine
amplitude * signal + offset step.  The result is an Option only because the
Demodulated branch calls demodulate_signal. -/
def channel_signal (signal_type : String) (t : List ℝ)
    (amplitude frequency offset mod_index carrier_freq : ℝ)
    (message_signal : Waveform) (rng : ℕ → ℝ) : Option Waveform :=
  if strContains signal_type "Message Signal" = true then
    some (generate_signal "Sine Wave" t amplitude frequency offset rng)
  else if strContains signal_type "Clock Pulse" = true then
    some (generate_signal "Clock Pulse" t amplitude frequency offset rng)
  else if strContains signal_type "Carrier Wave" = true then
    some (generate_signal "Carrier Wave" t amplitude carrier_freq offset rng)
  else if strContains signal_type "Modulated" = true then
    some ((modulate_signal carrier_freq message_signal t (firstWord signal_type) mod_index).map
      (fun x => amplitude * x + offset))
  else if strContains signal_type "Demodulated" = true then
    (demodulate_signal
        (modulate_signal carrier_freq message_signal t (firstWord signal_type) mod_index)
        (firstWord signal_type)).map
      (fun w => w.map (fun x => amplitude * x + offset))
  else
    some (t.map (fun _ => 0))

/-! Branch evaluation lemmas: each one reads a single branch of a source
function off the string dispatch. -/

lemma gen_sine (t : List ℝ) (a f o : ℝ) (rng : ℕ → ℝ) :
    generate_signal "Sine Wave" t a f o rng
      = t.map (fun x => a * Real.sin (2 * π * f * x) + o) := rfl

lemma gen_square (t : List ℝ) (a f o : ℝ) (rng : ℕ → ℝ) :
    generate_signal "Square Wave" t a f o rng
      = t.map (fun x => a * scipy_square 0.5 (2 * π * f * x) + o) := rfl

lemma gen_clock (t : List ℝ) (a f o : ℝ) (rng : ℕ → ℝ) :
    generate_signal "Clock Pulse" t a f o rng
      = t.map (fun x => a * scipy_square 0.5 (2 * π * f * x) + o) := rfl

lemma gen_binary (t : List ℝ) (a f o : ℝ) (rng : ℕ → ℝ) :
    generate_signal "Binary Data" t a f o rng
      = (List.range t.length).map (fun i => a * (if rng i > 0.5 then (1:ℝ) else 0) + o) := rfl

lemma mod_am (fc k : ℝ) (msg : Waveform) (t : List ℝ) :
    modulate_signal fc msg t "AM" k
      = List.zipWith (fun m c => (1 + k * m) * c) msg
          (t.map (fun x => Real.sin (2 * π * fc * x))) := rfl

lemma mod_fm (fc k : ℝ) (msg : Waveform) (t : List ℝ) :
    modulate_signal fc msg t "FM" k
      = List.zipWith (fun x s => Real.sin (2 * π * fc * x + k * s)) t
          ((cumsum msg).map (fun s => s * (t.getD 1 0 - t.getD 0 0))) := rfl

lemma mod_pm (fc k : ℝ) (msg : Waveform) (t : List ℝ) :
    modulate_signal fc msg t "PM" k
      = List.zipWith (fun x m => Real.sin (2 * π * fc * x + k * m)) t msg := rfl

lemma mod_fsk (fc k : ℝ) (msg : Waveform) (t : List ℝ) :
    modulate_signal fc msg t "FSK" k
      = List.zipWith (fun m x =>
          if m > 0 then Real.sin (2 * π * fc * 1.5 * x)
          else Real.sin (2 * π * fc * x)) msg t := rfl

lemma mod_psk (fc k : ℝ) (msg : Waveform) (t : List ℝ) :
    modulate_signal fc msg t "PSK" k
      = List.zipWith (fun c m => c * np_sign m)
          (t.map (fun x => Real.sin (2 * π * fc * x))) msg := rfl

lemma demod_ask (w : Waveform) :
    demodulate_signal w "ASK" = some (w.map (fun x => if x > 0.1 then (1:ℝ) else 0)) := rfl

lemma demod_psk (w : Waveform) :
    demodulate_signal w "PSK" = some (w.map (fun x => if x > 0 then (1:ℝ) else 0)) := rfl

/-! General helper lemmas. -/

lemma np_sign_of_pos {x : ℝ} (h : 0 < x) : np_sign x = 1 := by
  unfold np_sign
  rw [if_pos h]

lemma np_unwrap_go_length (l : List ℝ) :
    ∀ prev acc : ℝ, (np_unwrap_go prev acc l).length = l.length := by
  induction l with
  | nil => intro prev acc; rfl
  | cons x xs ih =>
    intro prev acc
    simp only [np_unwrap_go, List.length_cons, ih]

lemma np_unwrap_length (l : List ℝ) : (np_unwrap l).length = l.length := by
  cases l with
  | nil => rfl
  | cons x xs => simp only [np_unwrap, List.length_cons, np_unwrap_go_length]

lemma np_gradient_of_two_le (l : List ℝ) (h : 2 ≤ l.length) :
    ∃ g, np_gradient l = some g ∧ g.length = l.length := by
  unfold np_gradient
  rw [if_neg (by omega)]
  exact ⟨_, rfl, by simp⟩

lemma exists_of_mem_zipWith {α β γ : Type} {f : α → β → γ} :
    ∀ {l1 : List α} {l2 : List β} {x : γ}, x ∈ List.zipWith f l1 l2 → ∃ a b, x = f a b := by
  intro l1
  induction l1 with
  | nil => intro l2 x hx; simp at hx
  | cons a as ih =>
    intro l2 x hx
    cases l2 with
    | nil => simp at hx
    | cons b bs =>
      rw [List.zipWith_cons_cons] at hx
      rcases List.mem_cons.mp hx with h | h
      · exact ⟨a, b, h⟩
      · exact ih h

lemma zipWith_eq_right_of (f : ℝ → ℝ → ℝ) :
    ∀ (l1 l2 : List ℝ), l1.length = l2.length → (∀ a ∈ l1, ∀ b, f a b = b) →
      List.zipWith f l1 l2 = l2 := by
  intro l1
  induction l1 with
  | nil =>
    intro l2 h _
    cases l2 with
    | nil => rfl
    | cons b bs => simp at h
  | cons a as ih =>
    intro l2 h hf
    cases l2 with
    | nil => simp at h
    | cons b bs =>
      rw [List.zipWith_cons_cons, hf a (by simp) b,
        ih bs (by simpa using h) (fun x hx b2 => hf x (List.mem_cons_of_mem a hx) b2)]

lemma zipWith_eq_left_of (f : ℝ → ℝ → ℝ) :
    ∀ (l1 l2 : List ℝ), l1.length = l2.length → (∀ b ∈ l2, ∀ a, f a b = a) →
      List.zipWith f l1 l2 = l1 := by
  intro l1
  induction l1 with
  | nil =>
    intro l2 h _
    rfl
  | cons a as ih =>
    intro l2 h hf
    cases l2 with
    | nil => simp at h
    | cons b bs =>
      rw [List.zipWith_cons_cons, hf b (by simp) a,
        ih bs (by simpa using h) (fun x hx a2 => hf x (List.mem_cons_of_mem b hx) a2)]

lemma getD_map_lt (f : ℝ → ℝ) :
    ∀ (l : List ℝ) (i : ℕ), i < l.length → ∀ d1 d2 : ℝ,
      (l.map f).getD i d2 = f (l.getD i d1) := by
  intro l
  induction l with
  | nil => intro i hi; simp at hi
  | cons a as ih =>
    intro i hi d1 d2
    cases i with
    | zero => simp
    | succ n =>
      simp only [List.map_cons, List.getD_cons_succ]
      exact ih n (by simpa using hi) d1 d2

lemma generate_signal_rng_irrel (st : String) (t : List ℝ) (a f o : ℝ)
    (rng1 rng2 : ℕ → ℝ) (h : st ≠ "Binary Data") :
    generate_signal st t a f o rng1 = generate_signal st t a f o rng2 := by
  simp only [generate_signal]
  split_ifs <;> simp_all

/-! Claim theorems. -/

/-- C1, counterexample: a synthesis call with the invalid frequency -1 and a
modulation call with the invalid carrier frequency 0 both return an ordinary
Waveform instead of failing; no branch of generate_signal or modulate_signal
contains any parameter check or error path, so the invalid parameters are
silently accepted. -/
theorem C1_counterexample :
    generate_signal "Sine Wave" [(0:ℝ)] 1 (-1) 0 (fun _ => 0) = [(0:ℝ)] ∧
    modulate_signal 0 [(1:ℝ)] [(0:ℝ)] "AM" 1 = [(0:ℝ)] := by
  constructor
  · rw [gen_sine]
    simp
  · rw [mod_am]
    simp

/-- C1, amended: generate_signal and modulate_signal perform no parameter
validation at all; with frequency less or equal 0 or negative amplitude, and
with carrier frequency less or equal 0, they silently return the Waveform
computed by the ordinary branch formulas, of the expected length, instead of
failing fast. -/
theorem C1_no_validation (t : List ℝ) (a f o fc k : ℝ) (msg : Waveform) (rng : ℕ → ℝ)
    (hbad : f ≤ 0 ∨ a < 0) (hfc : fc ≤ 0) (hlen : msg.length = t.length) :
    generate_signal "Sine Wave" t a f o rng
        = t.map (fun x => a * Real.sin (2 * π * f * x) + o) ∧
    (generate_signal "Sine Wave" t a f o rng).length = t.length ∧
    (modulate_signal fc msg t "AM" k).length = t.length := by
  refine ⟨gen_sine t a f o rng, ?_, ?_⟩
  · rw [gen_sine]
    simp
  · rw [mod_am]
    simp [hlen]

/-- C1 witness: the amended statement at the concrete invalid inputs
frequency -1 and carrier frequency 0. -/
theorem C1_no_validation_witness :
    generate_signal "Sine Wave" [(0:ℝ)] 1 (-1) 0 (fun _ => 0)
        = ([(0:ℝ)]).map (fun x => 1 * Real.sin (2 * π * (-1) * x) + 0) ∧
    (generate_signal "Sine Wave" [(0:ℝ)] 1 (-1) 0 (fun _ => 0)).length = ([(0:ℝ)]).length ∧
    (modulate_signal 0 [(1:ℝ)] [(0:ℝ)] "AM" 1).length = ([(0:ℝ)]).length :=
  C1_no_validation [(0:ℝ)] 1 (-1) 0 0 1 [(1:ℝ)] (fun _ => 0)
    (Or.inl (by norm_num)) (by norm_num) (by simp)

/-- C2, counterexample: with the all positive message [1] over the time base
[3/4] and carrier frequency 1, the PSK modulated signal is [-1] (the carrier
value sin(3*pi/2), far from the zero threshold boundary), and the PSK
demodulation of it is [0], not the all ones waveform [1]. -/
theorem C2_counterexample :
    modulate_signal 1 [(1:ℝ)] [(3:ℝ)/4] "PSK" 1 = [(-1:ℝ)] ∧
    demodulate_signal (modulate_signal 1 [(1:ℝ)] [(3:ℝ)/4] "PSK" 1) "PSK" = some [(0:ℝ)] ∧
    ([(0:ℝ)] : Waveform) ≠ [(1:ℝ)] := by
  have hsin : Real.sin (2 * π * 1 * ((3:ℝ)/4)) = -1 := by
    have harg : (2 * π * 1 * ((3:ℝ)/4)) = π + π/2 := by ring
    rw [harg, Real.sin_add, Real.sin_pi, Real.cos_pi, Real.sin_pi_div_two, Real.cos_pi_div_two]
    ring
  have hmod : modulate_signal 1 [(1:ℝ)] [(3:ℝ)/4] "PSK" 1 = [(-1:ℝ)] := by
    rw [mod_psk]
    simp only [List.map_cons, List.map_nil, List.zipWith_cons_cons, List.zipWith_nil_right,
      hsin, np_sign]
    norm_num
  refine ⟨hmod, ?_, by simp⟩
  rw [hmod, demod_psk]
  norm_num

/-- C2, amended: on an all positive message of the length of the time base,
the PSK round trip returns the indicator of strict carrier positivity, a
waveform that is 1 exactly where sin(2*pi*fc*t) > 0 and 0 elsewhere; it is the
all ones waveform only at time bases where the carrier stays strictly
positive. -/
theorem C2_psk_roundtrip (fc k : ℝ) (t : List ℝ) (msg : Waveform)
    (hlen : msg.length = t.length) (hpos : ∀ m ∈ msg, 0 < m) :
    demodulate_signal (modulate_signal fc msg t "PSK" k) "PSK"
      = some (t.map (fun x => if Real.sin (2 * π * fc * x) > 0 then (1:ℝ) else 0)) := by
  have hcarr : modulate_signal fc msg t "PSK" k
      = t.map (fun x => Real.sin (2 * π * fc * x)) := by
    rw [mod_psk]
    apply zipWith_eq_left_of
    · simp [hlen]
    · intro b hb a
      rw [np_sign_of_pos (hpos b hb)]
      ring
  rw [hcarr, demod_psk, List.map_map]
  rfl

/-- C2 witness: the amended round trip at carrier frequency 1 on the one
sample all positive message [2] over the time base [0]. -/
theorem C2_psk_roundtrip_witness :
    demodulate_signal (modulate_signal 1 [(2:ℝ)] [(0:ℝ)] "PSK" 1) "PSK"
      = some (([(0:ℝ)]).map (fun x => if Real.sin (2 * π * 1 * x) > 0 then (1:ℝ) else 0)) :=
  C2_psk_roundtrip 1 1 [(0:ℝ)] [(2:ℝ)] (by simp)
    (by
      intro m hm
      rw [List.mem_singleton] at hm
      rw [hm]
      norm_num)

/-- C3: AM modulation with modulation index 0 is pointwise exactly the
unmodified carrier sin(2*pi*fc*t) over the whole time base, for every message
of the length of the time base. -/
theorem C3_am_zero_index_is_carrier (fc : ℝ) (msg : Waveform) (t : List ℝ)
    (hlen : msg.length = t.length) :
    modulate_signal fc msg t "AM" 0 = t.map (fun x => Real.sin (2 * π * fc * x)) := by
  rw [mod_am]
  apply zipWith_eq_right_of
  · simp [hlen]
  · intro a _ b
    ring

/-- C3 witness: the statement at carrier frequency 1, message [5], time base
[0]. -/
theorem C3_am_zero_index_is_carrier_witness :
    modulate_signal 1 [(5:ℝ)] [(0:ℝ)] "AM" 0
      = ([(0:ℝ)]).map (fun x => Real.sin (2 * π * 1 * x)) :=
  C3_am_zero_index_is_carrier 1 [(5:ℝ)] [(0:ℝ)] (by simp)

/-- C4: a scheme string that is none of AM, FM, PM, ASK, FSK, PSK makes
modulate_signal return the all zero waveform of the time base length and makes
demodulate_signal succeed (no error) with the all zero waveform of the input
length. -/
theorem C4_unknown_scheme (s : String)
    (h1 : s ≠ "AM") (h2 : s ≠ "FM") (h3 : s ≠ "PM")
    (h4 : s ≠ "ASK") (h5 : s ≠ "FSK") (h6 : s ≠ "PSK") :
    (∀ (fc k : ℝ) (msg : Waveform) (t : List ℝ),
        modulate_signal fc msg t s k = t.map (fun _ => (0:ℝ)) ∧
        (modulate_signal fc msg t s k).length = t.length) ∧
    (∀ w : Waveform, demodulate_signal w s = some (w.map (fun _ => (0:ℝ))) ∧
        (w.map (fun _ => (0:ℝ))).length = w.length) := by
  constructor
  · intro fc k msg t
    have hm : modulate_signal fc msg t s k = t.map (fun _ => (0:ℝ)) := by
      simp only [modulate_signal]
      rw [if_neg h1, if_neg h2, if_neg h3, if_neg h4, if_neg h5, if_neg h6]
    refine ⟨hm, ?_⟩
    rw [hm]
    simp
  · intro w
    constructor
    · simp only [demodulate_signal]
      rw [if_neg h1, if_neg (fun hc => hc.elim h2 h3), if_neg h4,
        if_neg (fun hc => hc.elim h6 h5)]
    · simp

/-- C4 witness: the unknown scheme "QAM" on concrete inputs. -/
theorem C4_unknown_scheme_witness :
    (modulate_signal 1 [(1:ℝ)] [(0:ℝ)] "QAM" 1 = ([(0:ℝ)]).map (fun _ => (0:ℝ)) ∧
      (modulate_signal 1 [(1:ℝ)] [(0:ℝ)] "QAM" 1).length = ([(0:ℝ)]).length) ∧
    (demodulate_signal [(5:ℝ)] "QAM" = some (([(5:ℝ)]).map (fun _ => (0:ℝ))) ∧
      (([(5:ℝ)]).map (fun _ => (0:ℝ))).length = ([(5:ℝ)]).length) :=
  ⟨(C4_unknown_scheme "QAM" (by decide) (by decide) (by decide) (by decide) (by decide)
      (by decide)).1 1 1 [(1:ℝ)] [(0:ℝ)],
   (C4_unknown_scheme "QAM" (by decide) (by decide) (by decide) (by decide) (by decide)
      (by decide)).2 [(5:ℝ)]⟩

/-- C5: synthesis output always has the length of the time base, for every
identity string, and demodulation output always has the length of the input
waveform, for every scheme; the input length hypothesis is the data model
invariant that every waveform carries at least the two samples that the FM and
PM branch of the demodulator (np.gradient) requires. -/
theorem C5_length_preservation :
    (∀ (st : String) (t : List ℝ) (a f o : ℝ) (rng : ℕ → ℝ),
        (generate_signal st t a f o rng).length = t.length) ∧
    (∀ (s : String) (w : Waveform), 2 ≤ w.length →
        (demodulate_signal w s).map List.length = some w.length) := by
  constructor
  · intro st t a f o rng
    simp only [generate_signal]
    split_ifs <;> simp
  · intro s w hw
    simp only [demodulate_signal]
    split_ifs
    · simp
    · have h2 : 2 ≤ (np_unwrap (w.map (fun x : ℝ =>
          Complex.arg ((x : ℂ) + (x : ℂ) * Complex.I)))).length := by
        rw [np_unwrap_length, List.length_map]
        exact hw
      obtain ⟨g, hg, hlen⟩ := np_gradient_of_two_le _ h2
      rw [hg]
      simp only [Option.map_some']
      rw [hlen, np_unwrap_length, List.length_map]
    · simp
    · simp
    · simp

/-- C5 witness: the synthesis length at the Binary Data kind on a two sample
time base and the demodulation length at the FM scheme on a two sample
waveform. -/
theorem C5_length_preservation_witness :
    (generate_signal "Binary Data" [(0:ℝ), 1] 1 1 0 (fun _ => 0)).length
        = ([(0:ℝ), 1]).length ∧
    (demodulate_signal [(1:ℝ), 2] "FM").map List.length = some ([(1:ℝ), 2]).length :=
  ⟨C5_length_preservation.1 "Binary Data" [(0:ℝ), 1] 1 1 0 (fun _ => 0),
   C5_length_preservation.2 "FM" [(1:ℝ), 2] (by simp)⟩

/-- C6: ASK demodulation never fails, keeps the length, and classifies the
sample at position i as 1 exactly when it is strictly greater than 0.1; a
sample equal to exactly 0.1 is classified as 0, and every output value is the
real number 0 or 1. -/
theorem C6_ask_strict_threshold (w : Waveform) (i : ℕ) (hi : i < w.length) :
    demodulate_signal w "ASK" = some (w.map (fun x => if x > 0.1 then (1:ℝ) else 0)) ∧
    (w.map (fun x => if x > 0.1 then (1:ℝ) else 0)).length = w.length ∧
    ((w.map (fun x => if x > 0.1 then (1:ℝ) else 0)).getD i 0 = 1 ↔ w.getD i 0 > 0.1) ∧
    (w.getD i 0 = 0.1 → (w.map (fun x => if x > 0.1 then (1:ℝ) else 0)).getD i 0 = 0) ∧
    ((w.map (fun x => if x > 0.1 then (1:ℝ) else 0)).getD i 0 = 0 ∨
      (w.map (fun x => if x > 0.1 then (1:ℝ) else 0)).getD i 0 = 1) := by
  have hget := getD_map_lt (fun x => if x > 0.1 then (1:ℝ) else 0) w i hi 0 0
  refine ⟨demod_ask w, by simp, ?_, ?_, ?_⟩
  · rw [hget]
    by_cases h : w.getD i 0 > 0.1
    · rw [if_pos h]
      exact iff_of_true rfl h
    · rw [if_neg h]
      constructor
      · intro h01
        norm_num at h01
      · intro hgt
        exact absurd hgt h
  · intro he
    rw [hget, he]
    norm_num
  · rw [hget]
    by_cases h : w.getD i 0 > 0.1
    · rw [if_pos h]
      right
      rfl
    · rw [if_neg h]
      left
      rfl

/-- C6 witness: the boundary input, a one sample waveform holding exactly 0.1,
is demodulated to 0. -/
theorem C6_ask_strict_threshold_witness :
    demodulate_signal [(0.1:ℝ)] "ASK"
        = some (([(0.1:ℝ)]).map (fun x => if x > 0.1 then (1:ℝ) else 0)) ∧
    (([(0.1:ℝ)]).map (fun x => if x > 0.1 then (1:ℝ) else 0)).length = ([(0.1:ℝ)]).length ∧
    ((([(0.1:ℝ)]).map (fun x => if x > 0.1 then (1:ℝ) else 0)).getD 0 0 = 1 ↔
      ([(0.1:ℝ)]).getD 0 0 > 0.1) ∧
    (([(0.1:ℝ)]).getD 0 0 = 0.1 →
      (([(0.1:ℝ)]).map (fun x => if x > 0.1 then (1:ℝ) else 0)).getD 0 0 = 0) ∧
    ((([(0.1:ℝ)]).map (fun x => if x > 0.1 then (1:ℝ) else 0)).getD 0 0 = 0 ∨
      (([(0.1:ℝ)]).map (fun x => if x > 0.1 then (1:ℝ) else 0)).getD 0 0 = 1) :=
  C6_ask_strict_threshold [(0.1:ℝ)] 0 (by simp)

/-- C7: a channel identity containing "Carrier Wave" but neither "Message
Signal" nor "Clock Pulse" is synthesized as a Carrier Wave from the request
amplitude and offset and the global carrier frequency; the request frequency
parameter does not enter, so changing it leaves the evaluated waveform
unchanged. -/
theorem C7_carrier_uses_global_frequency (st : String) (t : List ℝ)
    (a f o k cf : ℝ) (msg : Waveform) (rng : ℕ → ℝ)
    (hcw : strContains st "Carrier Wave" = true)
    (hms : strContains st "Message Signal" = false)
    (hcp : strContains st "Clock Pulse" = false) :
    channel_signal st t a f o k cf msg rng
        = some (generate_signal "Carrier Wave" t a cf o rng) ∧
    ∀ f2 : ℝ, channel_signal st t a f o k cf msg rng
        = channel_signal st t a f2 o k cf msg rng := by
  have hch : ∀ freq : ℝ, channel_signal st t a freq o k cf msg rng
      = some (generate_signal "Carrier Wave" t a cf o rng) := by
    intro freq
    simp only [channel_signal, hcw, hms, hcp]
    simp
  exact ⟨hch f, fun f2 => by rw [hch f, hch f2]⟩

/-- C7 witness: the literal identity "Carrier Wave" with request frequency 5
and global carrier frequency 10 resolves to the carrier at frequency 10. -/
theorem C7_carrier_uses_global_frequency_witness :
    channel_signal "Carrier Wave" [(0:ℝ)] 1 5 0 1 10 [(1:ℝ)] (fun _ => 0)
        = some (generate_signal "Carrier Wave" [(0:ℝ)] 1 10 0 (fun _ => 0)) :=
  (C7_carrier_uses_global_frequency "Carrier Wave" [(0:ℝ)] 1 5 0 1 10 [(1:ℝ)] (fun _ => 0)
    (by decide) (by decide) (by decide)).1

/-- C8: the Clock Pulse branch of generate_signal is pointwise identical to
the Square Wave branch at every time base, amplitude, frequency and offset:
both are the amplitude scaled, offset shifted scipy square wave at 50 percent
duty, kept as two distinct identities in the dispatch. -/
theorem C8_clock_pulse_equals_square (t : List ℝ) (a f o : ℝ) (rng : ℕ → ℝ) :
    generate_signal "Clock Pulse" t a f o rng = generate_signal "Square Wave" t a f o rng ∧
    generate_signal "Clock Pulse" t a f o rng
        = t.map (fun x => a * scipy_square 0.5 (2 * π * f * x) + o) :=
  ⟨(gen_clock t a f o rng).trans (gen_square t a f o rng).symm, gen_clock t a f o rng⟩

/-- C9: the only randomness in the engine is the Binary Data draw stream:
synthesis is independent of the random stream for every identity other than
Binary Data, the Binary Data output genuinely depends on the stream (a fresh
draw per call can change the result), and the whole channel evaluation pass,
in particular every modulate and demodulate path, never reads the stream at
all, so two calls with equal inputs yield equal output waveforms. -/
theorem C9_randomness_scope :
    (∀ (st : String) (t : List ℝ) (a f o : ℝ) (rng1 rng2 : ℕ → ℝ), st ≠ "Binary Data" →
        generate_signal st t a f o rng1 = generate_signal st t a f o rng2) ∧
    (∃ rng1 rng2 : ℕ → ℝ,
        generate_signal "Binary Data" [(0:ℝ)] 1 1 0 rng1
          ≠ generate_signal "Binary Data" [(0:ℝ)] 1 1 0 rng2) ∧
    (∀ (st : String) (t : List ℝ) (a f o k cf : ℝ) (msg : Waveform) (rng1 rng2 : ℕ → ℝ),
        channel_signal st t a f o k cf msg rng1 = channel_signal st t a f o k cf msg rng2) := by
  refine ⟨fun st t a f o rng1 rng2 h => generate_signal_rng_irrel st t a f o rng1 rng2 h,
    ⟨fun _ => 1, fun _ => 0, ?_⟩, ?_⟩
  · rw [gen_binary, gen_binary]
    norm_num
  · intro st t a f o k cf msg rng1 rng2
    simp only [channel_signal]
    split_ifs
    · exact congrArg some
        (generate_signal_rng_irrel "Sine Wave" t a f o rng1 rng2 (by decide))
    · exact congrArg some
        (generate_signal_rng_irrel "Clock Pulse" t a f o rng1 rng2 (by decide))
    · exact congrArg some
        (generate_signal_rng_irrel "Carrier Wave" t a cf o rng1 rng2 (by decide))
    · rfl
    · rfl
    · rfl

/-- C9 witness: the Sine Wave synthesis and an AM Modulated channel evaluation
are unchanged when the random stream changes. -/
theorem C9_randomness_scope_witness :
    generate_signal "Sine Wave" [(0:ℝ)] 1 1 0 (fun _ => 0)
        = generate_signal "Sine Wave" [(0:ℝ)] 1 1 0 (fun _ => 1) ∧
    channel_signal "AM Modulated" [(0:ℝ)] 1 1 0 1 10 [(1:ℝ)] (fun _ => 0)
        = channel_signal "AM Modulated" [(0:ℝ)] 1 1 0 1 10 [(1:ℝ)] (fun _ => 1) :=
  ⟨C9_randomness_scope.1 "Sine Wave" [(0:ℝ)] 1 1 0 (fun _ => 0) (fun _ => 1) (by decide),
   C9_randomness_scope.2.2 "AM Modulated" [(0:ℝ)] 1 1 0 1 10 [(1:ℝ)] (fun _ => 0) (fun _ => 1)⟩

/-- C10: every sample of the FM, PM and FSK modulated output lies in the
closed interval [-1, 1], because each one is the sine of a real phase, for
every message, time base, positive carrier frequency and modulation index. -/
theorem C10_phase_outputs_bounded (fc k : ℝ) (msg : Waveform) (t : List ℝ) (s : String)
    (hfc : 0 < fc) (hs : s = "FM" ∨ s = "PM" ∨ s = "FSK") :
    ∀ x ∈ modulate_signal fc msg t s k, -1 ≤ x ∧ x ≤ 1 := by
  intro x hx
  rcases hs with h | h | h <;> subst h
  · rw [mod_fm] at hx
    obtain ⟨a, b, rfl⟩ := exists_of_mem_zipWith hx
    exact ⟨Real.neg_one_le_sin _, Real.sin_le_one _⟩
  · rw [mod_pm] at hx
    obtain ⟨a, b, rfl⟩ := exists_of_mem_zipWith hx
    exact ⟨Real.neg_one_le_sin _, Real.sin_le_one _⟩
  · rw [mod_fsk] at hx
    obtain ⟨a, b, rfl⟩ := exists_of_mem_zipWith hx
    split_ifs
    · exact ⟨Real.neg_one_le_sin _, Real.sin_le_one _⟩
    · exact ⟨Real.neg_one_le_sin _, Real.sin_le_one _⟩

/-- C10 witness: the sample 0 of the FM output for the zero message over the
time base [0, 1] at carrier frequency 1 is bounded by [-1, 1]. -/
theorem C10_phase_outputs_bounded_witness :
    ((0:ℝ) ∈ modulate_signal 1 [(0:ℝ), 0] [(0:ℝ), 1] "FM" 1) ∧
    (-1 ≤ (0:ℝ) ∧ (0:ℝ) ≤ 1) := by
  have hmod : modulate_signal 1 [(0:ℝ), 0] [(0:ℝ), 1] "FM" 1 = [0, 0] := by
    rw [mod_fm]
    simp only [cumsum, cumsumAux, List.map_cons, List.map_nil, List.zipWith_cons_cons,
      List.zipWith_nil_right, List.getD_cons_succ, List.getD_cons_zero]
    have h1 : 2 * π * 1 * 0 + 1 * ((0 + (0:ℝ)) * (1 - 0)) = 0 := by ring
    have h2 : 2 * π * 1 * 1 + 1 * ((0 + (0:ℝ) + 0) * (1 - 0)) = 2 * π := by ring
    rw [h1, h2, Real.sin_zero, Real.sin_two_pi]
  have hmem : (0:ℝ) ∈ modulate_signal 1 [(0:ℝ), 0] [(0:ℝ), 1] "FM" 1 := by
    rw [hmod]
    simp
  exact ⟨hmem,
    C10_phase_outputs_bounded 1 1 [(0:ℝ), 0] [(0:ℝ), 1] "FM" (by norm_num) (Or.inl rfl) 0 hmem⟩

end



